import Mathlib

/-!
Shallow embedding of the workflow execution engine of
`src/agentic-workflow/backend/src/services/workflowEngine.ts`.

JavaScript values flowing through a workflow are modelled by the JSON-like
type `Value`.  The dynamic evaluation of user-supplied JavaScript strings
(`new Function` in `evaluateCondition` / `transformData`) is modelled by
evaluation oracles passed in as parameters: an oracle returns `none` when the
evaluated expression throws.  The Supabase table and the Redis store are
modelled explicitly as state threaded through the functions; Redis writes are
kept as an append-only log recording the TTL passed to every `redis.set`.
Timestamps (`started_at`, `completed_at`) and the `uuidv4` execution id are
irrelevant to every claim: timestamps are omitted and the fresh id is an
explicit argument.
-/

/-- JSON-like runtime values (JavaScript objects crossing the engine). -/
inductive Value where
  | null
  | bool (b : Bool)
  | num (n : Int)
  | str (s : String)
  | arr (xs : List Value)
  | obj (fields : List (String × Value))

/-- JavaScript truthiness of a `Value` (used by the `obj && obj[key]` guard in
`formatOutput`'s dot-path reduce). -/
def jsTruthy : Value → Bool
  | .null => false
  | .bool b => b
  | .num n => n != 0
  | .str s => s != ""
  | .arr _ => true
  | .obj _ => true

/-- First-match association lookup in an object's field list. -/
def assocFind : List (String × Value) → String → Option Value
  | [], _ => none
  | (k, v) :: rest, key => if k = key then some v else assocFind rest key

/-- JavaScript property access `obj[key]`, returning `none` for `undefined`.
Objects look keys up in their fields; arrays and strings answer `length` and
numeric indices; every other access is `undefined`. -/
def getProp : Value → String → Option Value
  | .obj fs, key => assocFind fs key
  | .arr xs, key =>
      if key = "length" then some (.num xs.length)
      else match key.toNat? with
        | some i => xs.get? i
        | none => none
  | .str s, key =>
      if key = "length" then some (.num s.length)
      else match key.toNat? with
        | some i => (s.data.get? i).map (fun c => .str (String.mk [c]))
        | none => none
  | _, _ => none

/-- One step of the dot-path reduce in `formatOutput`:
`obj && obj[key] !== undefined ? obj[key] : undefined`. -/
def pathStep (acc : Option Value) (key : String) : Option Value :=
  match acc with
  | some v => if jsTruthy v then getProp v key else none
  | none => none

/-- The dot-path lookup `path.split('.').reduce(...)` of `formatOutput`. -/
def lookupPath (input : Value) (keys : List String) : Option Value :=
  keys.foldl pathStep (some input)

mutual

/-- JavaScript `String(value)` coercion. -/
def jsToString : Value → String
  | .null => "null"
  | .bool b => cond b "true" "false"
  | .num n => toString n
  | .str s => s
  | .obj _ => "[object Object]"
  | .arr xs => jsArrToString xs

/-- JavaScript `Array.prototype.toString` (join with `,`; `null` elements
become the empty string, nested arrays recurse). -/
def jsArrToString : List Value → String
  | [] => ""
  | [Value.null] => ""
  | [v] => jsToString v
  | Value.null :: xs => "," ++ jsArrToString xs
  | v :: xs => jsToString v ++ "," ++ jsArrToString xs

end

/-- Hexadecimal digit for JSON control-character escapes. -/
def hexDigit (n : Nat) : Char :=
  if n < 10 then Char.ofNat (48 + n) else Char.ofNat (87 + n)

/-- JSON string escaping as performed by `JSON.stringify`. -/
def escapeJsonChar (c : Char) : String :=
  if c = '"' then "\\\""
  else if c = '\\' then "\\\\"
  else if c = '\n' then "\\n"
  else if c = '\r' then "\\r"
  else if c = '\t' then "\\t"
  else if c.toNat < 32 then
    String.mk ['\\', 'u', '0', '0', hexDigit (c.toNat / 16), hexDigit (c.toNat % 16)]
  else String.mk [c]

/-- JSON string escaping lifted to strings. -/
def escapeJson (s : String) : String := String.join (s.data.map escapeJsonChar)

mutual

/-- Compact form of `JSON.stringify(v)`. -/
def jsonStringify : Value → String
  | .null => "null"
  | .bool b => cond b "true" "false"
  | .num n => toString n
  | .str s => "\"" ++ escapeJson s ++ "\""
  | .arr xs => "[" ++ jsonArr xs ++ "]"
  | .obj fs => "\x7b" ++ jsonFields fs ++ "\x7d"

/-- Comma-joined JSON rendering of array elements. -/
def jsonArr : List Value → String
  | [] => ""
  | [x] => jsonStringify x
  | x :: xs => jsonStringify x ++ "," ++ jsonArr xs

/-- Comma-joined JSON rendering of object fields. -/
def jsonFields : List (String × Value) → String
  | [] => ""
  | [(k, v)] => "\"" ++ escapeJson k ++ "\":" ++ jsonStringify v
  | (k, v) :: rest => "\"" ++ escapeJson k ++ "\":" ++ jsonStringify v ++ "," ++ jsonFields rest

end

/-- Indentation prefix used by `JSON.stringify(v, null, 2)`. -/
def jsonIndent (level : Nat) : String := String.mk (List.replicate (2 * level) ' ')

mutual

/-- Body of `JSON.stringify(v, null, 2)` (the two-space pretty form used by the
`html` output format when no template is given). -/
def jsonPretty : Nat → Value → String
  | _, .null => "null"
  | _, .bool b => cond b "true" "false"
  | _, .num n => toString n
  | _, .str s => "\"" ++ escapeJson s ++ "\""
  | _, .arr [] => "[]"
  | level, .arr (x :: xs) =>
      "[\n" ++ jsonPrettyArr (level + 1) (x :: xs) ++ "\n" ++ jsonIndent level ++ "]"
  | _, .obj [] => "\x7b\x7d"
  | level, .obj (kv :: fs) =>
      "\x7b\n" ++ jsonPrettyFields (level + 1) (kv :: fs) ++ "\n" ++ jsonIndent level ++ "\x7d"

/-- Line-per-element pretty rendering of array elements. -/
def jsonPrettyArr : Nat → List Value → String
  | _, [] => ""
  | level, [x] => jsonIndent level ++ jsonPretty level x
  | level, x :: xs => jsonIndent level ++ jsonPretty level x ++ ",\n" ++ jsonPrettyArr level xs

/-- Line-per-field pretty rendering of object fields. -/
def jsonPrettyFields : Nat → List (String × Value) → String
  | _, [] => ""
  | level, [(k, v)] =>
      jsonIndent level ++ "\"" ++ escapeJson k ++ "\": " ++ jsonPretty level v
  | level, (k, v) :: rest =>
      jsonIndent level ++ "\"" ++ escapeJson k ++ "\": " ++ jsonPretty level v ++ ",\n" ++
        jsonPrettyFields level rest

end

/-- Entry point for `JSON.stringify(v, null, 2)`. -/
def jsonStringifyPretty (v : Value) : String := jsonPretty 0 v

/-- Locate the first `\x7d\x7d` closing a template placeholder: returns the
captured path characters and the remainder after the close.  Mirrors the lazy
regex `/\x7b\x7b(.*?)\x7d\x7d/` of `formatOutput`: `.` does not cross line
terminators, and the shortest match wins. -/
def findClose : List Char → Option (List Char × List Char)
  | [] => none
  | c :: rest =>
      if c = '}' ∧ rest.head? = some '}' then some ([], rest.tail)
      else if c = '\n' ∨ c = '\r' then none
      else
        match findClose rest with
        | some (p, r) => some (c :: p, r)
        | none => none

/-- One placeholder substitution of `formatOutput`'s `template.replace`
callback: a resolved dot-path becomes `String(value)`, an unresolved path
leaves the whole match in place. -/
def substPlaceholder (input : Value) (path : List Char) : List Char :=
  match lookupPath input ((String.mk path).splitOn ".") with
  | some v => (jsToString v).data
  | none => '{' :: '{' :: (path ++ ('}' :: '}' :: []))

/-- The template scan of `template.replace(/\x7b\x7b(.*?)\x7d\x7d/g, ...)`,
fuelled (fuel one more than the character count always suffices, since every
step consumes at least one character). -/
def renderAux (input : Value) : Nat → List Char → List Char
  | 0, l => l
  | _ + 1, [] => []
  | _ + 1, [c1] => [c1]
  | f + 1, c1 :: c2 :: rest2 =>
      if c1 = '{' ∧ c2 = '{' then
        match findClose rest2 with
        | some (path, rest') => substPlaceholder input path ++ renderAux input f rest'
        | none => c1 :: renderAux input f (c2 :: rest2)
      else c1 :: renderAux input f (c2 :: rest2)

/-- Placeholder substitution over a whole template string. -/
def renderTemplate (template : String) (input : Value) : String :=
  String.mk (renderAux input (template.data.length + 1) template.data)

/-! ## Graph data model -/

/-- Per-node configuration blob (`node.data`): only the fields the engine
reads, each defaulting to the empty value. -/
structure NodeData where
  agentId : String := ""
  prompt : String := ""
  condition : String := ""
  transformType : String := ""
  code : String := ""
  format : String := ""
  template : Option String := none
deriving DecidableEq

/-- A workflow node. -/
structure Node where
  id : String
  type : String
  data : NodeData := {}
deriving DecidableEq

/-- A directed edge, optionally carrying the `true`/`false` branch label of a
condition node on `sourceHandle`. -/
structure Edge where
  source : String
  target : String
  sourceHandle : Option String := none
deriving DecidableEq

/-- A stored workflow row (`workflows` table): the engine reads `id`,
`user_id`, `nodes` and `edges`. -/
structure Workflow where
  id : String := ""
  user_id : String := ""
  nodes : List Node
  edges : List Edge

/-- Node lookup `workflow.nodes.find(n => n.id === nodeId)`. -/
def findNode (w : Workflow) (nodeId : String) : Option Node :=
  w.nodes.find? (fun n => n.id == nodeId)

/-- Outgoing edges `workflow.edges.filter(e => e.source === nodeId)`. -/
def edgesFrom (w : Workflow) (nodeId : String) : List Edge :=
  w.edges.filter (fun e => e.source == nodeId)

/-! ## Execution state and stores -/

/-- The ephemeral execution state mirrored to Redis
(`WorkflowExecutionState` in the source).  `nodeResults` is kept as an
association list in JavaScript object insertion order. -/
structure WorkflowExecutionState where
  status : String
  currentNodeId : Option String
  input : Value
  output : Value
  nodeResults : List (String × Value)
  error : Option String := none

/-- A durable execution row (`workflow_executions` table); timestamps are
omitted as no claim mentions them. -/
structure ExecRecord where
  id : String
  workflow_id : String
  user_id : String
  status : String
  input : Value
  result : Option Value := none
  error : Option String := none

/-- One `redis.set` call: key, stored state, and the TTL passed as `ex`. -/
structure RedisWrite where
  key : String
  state : WorkflowExecutionState
  ttl : Nat

/-- The two collaborating stores: the durable `workflow_executions` table
(plus the history of status values written to it) and the Redis write log. -/
structure Stores where
  executions : List ExecRecord := []
  statusLog : List (String × String) := []
  redisLog : List RedisWrite := []

/-- Append a `redis.set` to the log. -/
def redisSet (s : Stores) (key : String) (st : WorkflowExecutionState) (ttl : Nat) : Stores :=
  { s with redisLog := s.redisLog ++ [{ key := key, state := st, ttl := ttl }] }

/-- Read the latest value written for a key (`redis.get`); TTL expiry is not
modelled (no claim depends on the passage of time). -/
def redisGet (s : Stores) (key : String) : Option WorkflowExecutionState :=
  ((s.redisLog.filter (fun wr => wr.key == key)).getLast?).map (fun wr => wr.state)

/-- Insert an execution row (`supabase.from('workflow_executions').insert`). -/
def dbInsert (s : Stores) (r : ExecRecord) : Stores :=
  { s with
      executions := s.executions ++ [r]
      statusLog := s.statusLog ++ [(r.id, r.status)] }

/-- Update the status (and optionally result/error) of an execution row
(`supabase...update(...).eq('id', executionId)`). -/
def dbUpdateStatus (s : Stores) (eid status : String)
    (result : Option Value) (error : Option String) : Stores :=
  { s with
      executions := s.executions.map (fun r =>
        if r.id == eid then
          { r with
              status := status
              result := match result with | some v => some v | none => r.result
              error := match error with | some e => some e | none => r.error }
        else r)
      statusLog := s.statusLog ++ [(eid, status)] }

/-- The Redis key `workflow:(workflowId):execution:(executionId):state`. -/
def stateKey (wfId eid : String) : String :=
  "workflow:" ++ wfId ++ ":execution:" ++ eid ++ ":state"

/-- The source's `updateExecutionState`: store the state under the execution's
key with a 1-hour TTL. -/
def updateExecutionState (wfId eid : String) (st : WorkflowExecutionState) (s : Stores) :
    Stores :=
  redisSet s (stateKey wfId eid) st 3600

/-! ## Node handlers -/

/-- Oracle for the dynamic evaluation of a condition string against an input
(`new Function('input', 'return (condition)')` applied to the input, with the
returned value coerced to a boolean); `none` means the construction or the
call threw. -/
def CondEval : Type := String → Value → Option Bool

/-- Oracle for the dynamic evaluation of a transform code string; `none`
means the construction or the call threw. -/
def TransEval : Type := String → Value → Option Value

/-- Oracle for `executeAgentAction(agentId, prompt, input, userId)` (the agent
service is not under `src/`; per the spec it is an external collaborator that
returns a result or fails with an agent execution error). -/
def AgentExec : Type := String → String → Value → String → Except String Value

/-- The source's `evaluateCondition`: the inner `try` of the generated
function returns `false` when the expression throws at run time, and the
outer `try` returns `false` when `new Function` itself throws — so every
evaluator exception yields `false`. -/
def evaluateCondition (cE : CondEval) (condition : String) (input : Value) : Bool :=
  match cE condition input with
  | some b => b
  | none => false

set_option linter.unusedVariables false in
/-- The source's `transformData`: the generated function returns `input` when
the user code throws (inner `catch`), and the outer `catch` also returns
`input` when `new Function` itself throws.  `transformType` is read from the
node but never used, as in the source. -/
def transformData (dE : TransEval) (transformType code : String) (input : Value) : Value :=
  match dE code input with
  | some v => v
  | none => input

/-- The source's `formatOutput`: `json` passes the input through; `text` and
`html` render the template with placeholder substitution, falling back to
`JSON.stringify` when the template is `undefined` or empty (JavaScript
`!template`); unknown formats pass the input through. -/
def formatOutput (format : String) (template : Option String) (input : Value) : Value :=
  match format with
  | "json" => input
  | "text" =>
      match template with
      | none => .str (jsonStringify input)
      | some t => if t = "" then .str (jsonStringify input) else .str (renderTemplate t input)
  | "html" =>
      match template with
      | none => .str ("<pre>" ++ jsonStringifyPretty input ++ "</pre>")
      | some t =>
          if t = "" then .str ("<pre>" ++ jsonStringifyPretty input ++ "</pre>")
          else .str (renderTemplate t input)
  | _ => input

/-! ## The execution coordinator -/

/-- Assignment `state.nodeResults[nodeId] = result`: JavaScript object assignment keeps
the position of an existing key and appends a fresh key. -/
def setResult : List (String × Value) → String → Value → List (String × Value)
  | [], k, v => [(k, v)]
  | (k', v') :: rest, k, v =>
      if k' == k then (k', v) :: rest else (k', v') :: setResult rest k v

/-- Outcome of `processNode`: a returned value, a thrown error (carrying the
in-memory state and stores at throw time, since the JavaScript state object
is mutated in place and Redis writes have already happened), or `div`,
marking that the given fuel was exhausted — the source recursion has no step
bound, so `div` for every fuel models non-termination. -/
inductive PRes where
  | ok (v : Value) (st : WorkflowExecutionState) (s : Stores)
  | err (msg : String) (st : WorkflowExecutionState) (s : Stores)
  | div

/-- The source's `processNode`, fuelled by the number of node visits.  The
structure mirrors the source exactly: node lookup, entry write of
`currentNodeId`, the `switch` on `node.type` (whose `condition` case itself
recurses into the selected branch), the write of the node result, and the
generic tail that follows `edges[0]` unless the node is an `output` or has no
outgoing edges. -/
def processNodeF (aE : AgentExec) (cE : CondEval) (dE : TransEval)
    (uid wfId eid : String) (w : Workflow) :
    Nat → String → Value → WorkflowExecutionState → Stores → PRes
  | 0, _, _, _, _ => .div
  | fuel + 1, nodeId, input, st, s =>
      match findNode w nodeId with
      | none => .err ("Node not found: " ++ nodeId) st s
      | some node =>
          let st1 := { st with currentNodeId := some nodeId }
          let s1 := updateExecutionState wfId eid st1 s
          let afterSwitch : PRes :=
            match node.type with
            | "trigger" => .ok input st1 s1
            | "agent" =>
                match aE node.data.agentId node.data.prompt input uid with
                | .ok v => .ok v st1 s1
                | .error e => .err e st1 s1
            | "condition" =>
                let conditionResult := evaluateCondition cE node.data.condition input
                let edges := edgesFrom w nodeId
                match edges.find? (fun e =>
                    (conditionResult && e.sourceHandle == some "true") ||
                    (!conditionResult && e.sourceHandle == some "false")) with
                | none =>
                    .err ("No edge found for condition result: " ++ toString conditionResult)
                      st1 s1
                | some nextEdge =>
                    processNodeF aE cE dE uid wfId eid w fuel nextEdge.target input st1 s1
            | "transform" =>
                .ok (transformData dE node.data.transformType node.data.code input) st1 s1
            | "output" =>
                .ok (formatOutput node.data.format node.data.template input) st1 s1
            | other => .err ("Unsupported node type: " ++ other) st1 s1
          match afterSwitch with
          | .div => .div
          | .err e st2 s2 => .err e st2 s2
          | .ok result st2 s2 =>
              let st3 := { st2 with nodeResults := setResult st2.nodeResults nodeId result }
              let s3 := updateExecutionState wfId eid st3 s2
              match edgesFrom w nodeId with
              | [] => .ok result st3 s3
              | e :: _ =>
                  if node.type == "output" then .ok result st3 s3
                  else processNodeF aE cE dE uid wfId eid w fuel e.target result st3 s3

/-- The shared failure path of `runWorkflow`'s `catch`: re-read the state from
Redis and, if present, persist it as `failed` with the error message; then
update the durable row to `failed` with the error message. -/
def failPath (s : Stores) (wfId eid msg : String) : Stores :=
  let s1 :=
    match redisGet s (stateKey wfId eid) with
    | some st =>
        updateExecutionState wfId eid { st with status := "failed", error := some msg } s
    | none => s
  dbUpdateStatus s1 eid "failed" none (some msg)

/-- The source's `runWorkflow`.  Returns `none` when the traversal diverges
(fuel exhausted — the background task never finishes), otherwise the stores
after the run.  Mirrors the source: set the durable row to `running`, read
the state from Redis (throwing if absent), find the first `trigger` node
(throwing if none), point the state at it, process from there, then persist
`completed` with the result — any thrown error going through the `catch`. -/
def runWorkflowF (fuel : Nat) (aE : AgentExec) (cE : CondEval) (dE : TransEval)
    (wfId eid : String) (w : Workflow) (uid : String) (s : Stores) : Option Stores :=
  let s1 := dbUpdateStatus s eid "running" none none
  match redisGet s1 (stateKey wfId eid) with
  | none => some (failPath s1 wfId eid "Execution state not found")
  | some st0 =>
      let st1 := { st0 with status := "running" }
      match w.nodes.find? (fun n => n.type == "trigger") with
      | none => some (failPath s1 wfId eid "No trigger node found in workflow")
      | some trig =>
          let st2 := { st1 with currentNodeId := some trig.id }
          let s2 := updateExecutionState wfId eid st2 s1
          match processNodeF aE cE dE uid wfId eid w fuel trig.id st2.input st2 s2 with
          | .div => none
          | .err msg _ s3 => some (failPath s3 wfId eid msg)
          | .ok result st3 s3 =>
              let st4 := { st3 with status := "completed", output := result }
              let s4 := updateExecutionState wfId eid st4 s3
              some (dbUpdateStatus s4 eid "completed" (some result) none)

/-- The source's `executeWorkflow` up to the point where `runWorkflow` is
scheduled: look the workflow up by id and owner (Supabase `.single()` errors
unless exactly one row matches), insert the `pending` execution row, and
write the initial state to Redis with a 1-hour TTL.  The fresh execution id
(`uuidv4()` in the source) is an explicit argument.  On a failed lookup the
function throws before touching either store. -/
def executeWorkflowF (db : List Workflow) (workflowId : String) (input : Value)
    (userId freshId : String) (s : Stores) : Except String (Workflow × String) × Stores :=
  match db.filter (fun w => w.id == workflowId && w.user_id == userId) with
  | [w] =>
      let execution : ExecRecord :=
        { id := freshId, workflow_id := workflowId, user_id := userId,
          status := "pending", input := input }
      let s1 := dbInsert s execution
      let initState : WorkflowExecutionState :=
        { status := "pending", currentNodeId := none, input := input,
          output := .obj [], nodeResults := [], error := none }
      let s2 := redisSet s1 (stateKey workflowId freshId) initState 3600
      (.ok (w, freshId), s2)
  | _ => (.error "Workflow not found", s)

/-- Start an execution and run the scheduled background task to its end (the
source schedules `runWorkflow` with `setTimeout(..., 0)`): the observable
composition of `executeWorkflow` and `runWorkflow`. -/
def startAndRun (fuel : Nat) (aE : AgentExec) (cE : CondEval) (dE : TransEval)
    (db : List Workflow) (workflowId : String) (input : Value) (userId freshId : String)
    (s : Stores) : Except String (String × Option Stores) :=
  match executeWorkflowF db workflowId input userId freshId s with
  | (.error e, _) => .error e
  | (.ok (w, eid), s1) =>
      .ok (eid, runWorkflowF fuel aE cE dE workflowId eid w userId s1)

/-- Status of the durable row of an execution id. -/
def execStatus (s : Stores) (eid : String) : Option String :=
  (s.executions.find? (fun r => r.id == eid)).map (fun r => r.status)

/-- Recorded error of the durable row of an execution id. -/
def execError (s : Stores) (eid : String) : Option (Option String) :=
  (s.executions.find? (fun r => r.id == eid)).map (fun r => r.error)

/-- Recorded result of the durable row of an execution id. -/
def execResult (s : Stores) (eid : String) : Option (Option Value) :=
  (s.executions.find? (fun r => r.id == eid)).map (fun r => r.result)

/-! ## Projections and concrete fixtures used by the verification theorems -/

/-- Stores of a finished background run, when the start succeeded and the
run terminated. -/
def finalStores : Except String (String × Option Stores) → Option Stores
  | .ok (_, some s) => some s
  | _ => none

/-- Keys of `nodeResults` in the last state written for an execution: one key
per node that was visited (in JavaScript object insertion order). -/
def visitedKeys (s : Stores) (wfId eid : String) : Option (List String) :=
  (redisGet s (stateKey wfId eid)).map (fun st => st.nodeResults.map Prod.fst)

/-- Agent executor oracle that always succeeds with `null` (no fixture
workflow below routes through an `agent` node unless stated). -/
def aeDummy : AgentExec := fun _ _ _ _ => .ok .null

/-- Agent executor oracle that always fails. -/
def aeFail : AgentExec := fun _ _ _ _ => .error "agent boom"

/-- Condition evaluator oracle: every expression evaluates to `true`. -/
def ceTrue : CondEval := fun _ _ => some true

/-- Condition evaluator oracle: every expression throws. -/
def ceThrow : CondEval := fun _ _ => none

/-- Transform evaluator oracle: every transform returns its input. -/
def deId : TransEval := fun _ v => some v

/-- Transform evaluator oracle: every transform throws. -/
def deThrow : TransEval := fun _ _ => none

/-- Branching fixture: trigger, then a condition with a labeled `false` edge
to output `F` (first in the edge list) and a labeled `true` edge to output
`N`. -/
def wfBranch : Workflow :=
  { id := "w", user_id := "u",
    nodes := [
      { id := "T", type := "trigger" },
      { id := "C", type := "condition", data := { condition := "c" } },
      { id := "F", type := "output", data := { format := "json" } },
      { id := "N", type := "output", data := { format := "json" } }],
    edges := [
      { source := "T", target := "C" },
      { source := "C", target := "F", sourceHandle := some "false" },
      { source := "C", target := "N", sourceHandle := some "true" }] }

/-- A valid linear chain containing a `condition` node whose single outgoing
edge carries no branch label: trigger, condition, output. -/
def wfCondChain : Workflow :=
  { id := "w", user_id := "u",
    nodes := [
      { id := "T", type := "trigger" },
      { id := "C", type := "condition", data := { condition := "c" } },
      { id := "O", type := "output", data := { format := "json" } }],
    edges := [
      { source := "T", target := "C" },
      { source := "C", target := "O" }] }

/-- A workflow with two trigger nodes and a linear edge from the first. -/
def wfTwoTriggers : Workflow :=
  { id := "w", user_id := "u",
    nodes := [
      { id := "T1", type := "trigger" },
      { id := "T2", type := "trigger" },
      { id := "O", type := "output", data := { format := "json" } }],
    edges := [
      { source := "T1", target := "O" },
      { source := "T2", target := "O" }] }

/-- A workflow with no trigger node at all. -/
def wfNoTrigger : Workflow :=
  { id := "w", user_id := "u",
    nodes := [{ id := "O", type := "output", data := { format := "json" } }],
    edges := [] }

/-- A cyclic workflow: trigger into a two-transform cycle `A -> B -> A`,
reachable from the trigger. -/
def wfCycle : Workflow :=
  { id := "w", user_id := "u",
    nodes := [
      { id := "T", type := "trigger" },
      { id := "A", type := "transform", data := { code := "a" } },
      { id := "B", type := "transform", data := { code := "b" } }],
    edges := [
      { source := "T", target := "A" },
      { source := "A", target := "B" },
      { source := "B", target := "A" }] }

/-- Trigger followed by a single transform node running the given user code;
the transform's result is the final result (no outgoing edges). -/
def wfTransform (code : String) : Workflow :=
  { id := "w", user_id := "u",
    nodes := [
      { id := "T", type := "trigger" },
      { id := "X", type := "transform", data := { code := code } }],
    edges := [{ source := "T", target := "X" }] }

/-- Trigger followed by a single agent node. -/
def wfAgent : Workflow :=
  { id := "w", user_id := "u",
    nodes := [
      { id := "T", type := "trigger" },
      { id := "A", type := "agent", data := { agentId := "research", prompt := "p" } }],
    edges := [{ source := "T", target := "A" }] }

/-- Linear three-node chain: trigger, transform, output. -/
def wfChain3 : Workflow :=
  { id := "w", user_id := "u",
    nodes := [
      { id := "T", type := "trigger" },
      { id := "X", type := "transform", data := { code := "x" } },
      { id := "O", type := "output", data := { format := "json" } }],
    edges := [
      { source := "T", target := "X" },
      { source := "X", target := "O" }] }

/-- A set of node ids closed under the engine's generic edge-following: every
member is a `transform` node whose first outgoing edge targets a member.
Entering such a set makes `processNode` recurse forever. -/
def loopOk (w : Workflow) (S : List String) : Bool :=
  !S.isEmpty && S.all (fun id =>
    match findNode w id with
    | some n =>
        n.type == "transform" &&
          (match edgesFrom w id with
           | e :: _ => S.contains e.target
           | [] => false)
    | none => false)

/-- Every Redis write in the log carries a 1-hour TTL. -/
def allTTL (s : Stores) : Prop := ∀ wr ∈ s.redisLog, wr.ttl = 3600

/-- The stores carried by a `processNode` outcome (`none` for divergence). -/
def presStores : PRes → Option Stores
  | .ok _ _ s => some s
  | .err _ _ s => some s
  | .div => none

/-- How `processNode` may change the stores: the durable table and its status
history are untouched, and the Redis log only grows by writes to this
execution's state key, each carrying the 1-hour TTL. -/
def StoreExt (wfId eid : String) (s s' : Stores) : Prop :=
  s'.executions = s.executions ∧ s'.statusLog = s.statusLog ∧
    ∃ L, s'.redisLog = s.redisLog ++ L ∧
      ∀ wr ∈ L, wr.key = stateKey wfId eid ∧ wr.ttl = 3600

/-- The `pending` state written by `executeWorkflow` for a given input. -/
def pendingState (input : Value) : WorkflowExecutionState :=
  { status := "pending", currentNodeId := none, input := input,
    output := .obj [], nodeResults := [], error := none }

/-- Stores right after a successful `executeWorkflow` of the cyclic fixture. -/
def cycStores : Stores :=
  (executeWorkflowF [wfCycle] "w" .null "u" "e1" {}).2

/-- Stores holding only the pending execution state for `"w"`/`"e1"` (the
situation `runWorkflow` finds after `executeWorkflow` has run). -/
def s0WithState : Stores :=
  redisSet {} (stateKey "w" "e1") (pendingState .null) 3600

/-- The claim that a run of the cyclic fixture terminates is refuted by this
proposition: for every amount of fuel (number of node visits) the background
run of the cyclic workflow is still unfinished (`none`), i.e. the traversal
diverges — it never reaches any terminal status, and in particular never a
failure carrying a graph-cycle error (no such error exists anywhere in the
engine; fuel is an artifact of the embedding, not a ceiling in the code). -/
def cycClaim : Prop :=
  ∀ fuel, runWorkflowF fuel aeDummy ceTrue deId "w" "e1" wfCycle "u" cycStores = none


/-- Stores right after a successful `executeWorkflow` of the agent fixture. -/
def c6Stores : Stores :=
  (executeWorkflowF [wfAgent] "w" .null "u" "e1" {}).2

/-! ## Linear-chain machinery (claim C1) -/

/-- The value a non-`condition` node handler produces for an input, assuming
the agent executor succeeds (`stepOut` is the specification-side fold
function; the theorems relate it to `processNodeF`). -/
def stepOut (aE : AgentExec) (dE : TransEval) (uid : String) (n : Node) (input : Value) :
    Value :=
  match n.type with
  | "agent" =>
      match aE n.data.agentId n.data.prompt input uid with
      | .ok v => v
      | .error _ => input
  | "transform" => transformData dE n.data.transformType n.data.code input
  | "output" => formatOutput n.data.format n.data.template input
  | _ => input

/-- Per-node results along a chain, in traversal order, threading each output
into the next node's input. -/
def chainResults (aE : AgentExec) (dE : TransEval) (uid : String) :
    Value → List Node → List (String × Value)
  | _, [] => []
  | input, n :: ns =>
      (n.id, stepOut aE dE uid n input) ::
        chainResults aE dE uid (stepOut aE dE uid n input) ns

/-- The final value after folding a chain of handlers over an input. -/
def chainFinal (aE : AgentExec) (dE : TransEval) (uid : String) (input : Value)
    (ns : List Node) : Value :=
  ns.foldl (fun i n => stepOut aE dE uid n i) input

/-- Id of the last node of the nonempty chain `n :: ns`. -/
def lastNodeId : Node → List Node → String
  | n, [] => n.id
  | _, m :: ns => lastNodeId m ns

/-- A node kind the linear-chain theorem covers; an `agent` node additionally
requires that the agent executor succeeds on every input. -/
def NodeOk (aE : AgentExec) (uid : String) (n : Node) : Prop :=
  n.type = "trigger" ∨ n.type = "transform" ∨ n.type = "output" ∨
    (n.type = "agent" ∧ ∀ i, ∃ v, aE n.data.agentId n.data.prompt i uid = .ok v)

/-- Predicate `LinearChain w aE uid n ns` says that from node `n` the traversal is a linear
chain through `ns`: every node is of a covered kind, every non-final node is
not an `output` and has exactly one outgoing edge, pointing at the next node,
and the final node is an `output` or has no outgoing edges. -/
inductive LinearChain (w : Workflow) (aE : AgentExec) (uid : String) : Node → List Node → Prop
  | last (n : Node) (hok : NodeOk aE uid n)
      (hstop : n.type = "output" ∨ edgesFrom w n.id = []) : LinearChain w aE uid n []
  | step (n m : Node) (ns : List Node) (e : Edge) (hok : NodeOk aE uid n)
      (hne : n.type ≠ "output") (he : edgesFrom w n.id = [e]) (ht : e.target = m.id)
      (hm : findNode w m.id = some m) (tail : LinearChain w aE uid m ns) :
      LinearChain w aE uid n (m :: ns)

/-! ## Basic store lemmas -/

/-- Helper: assigning a key absent from `nodeResults` appends the entry. -/
theorem setResult_fresh :
    ∀ (l : List (String × Value)) (k : String) (v : Value),
      (∀ p ∈ l, p.1 ≠ k) → setResult l k v = l ++ [(k, v)]
  | [], _, _, _ => rfl
  | (k', v') :: rest, k, v, h => by
      have hk : (k' == k) = false :=
        beq_eq_false_iff_ne.mpr (h (k', v') (by simp))
      simp only [setResult, hk, Bool.false_eq_true, if_false, List.cons_append,
        List.cons.injEq, true_and]
      exact setResult_fresh rest k v (fun p hp => h p (by simp [hp]))

/-- Helper: updating the durable table does not change what Redis returns. -/
theorem redisGet_dbUpdate (s : Stores) (eid status : String) (res : Option Value)
    (err : Option String) (k : String) :
    redisGet (dbUpdateStatus s eid status res err) k = redisGet s k := rfl

/-- Helper: a `redis.set` is immediately readable. -/
theorem redisGet_set (s : Stores) (k : String) (st : WorkflowExecutionState) (ttl : Nat) :
    redisGet (redisSet s k st ttl) k = some st := by
  simp [redisGet, redisSet, List.filter_append]

/-- Helper: `redis.set` under another key leaves a key's view unchanged. -/
theorem redisGet_set_ne (s : Stores) (k k' : String) (st : WorkflowExecutionState)
    (ttl : Nat) (h : k' ≠ k) :
    redisGet (redisSet s k' st ttl) k = redisGet s k := by
  simp [redisGet, redisSet, List.filter_append, h]

/-- Helper: `StoreExt` is reflexive. -/
theorem StoreExt_refl (wfId eid : String) (s : Stores) : StoreExt wfId eid s s :=
  ⟨rfl, rfl, [], by simp, by simp⟩

/-- Helper: `StoreExt` is transitive. -/
theorem StoreExt_trans {wfId eid : String} {s1 s2 s3 : Stores}
    (h1 : StoreExt wfId eid s1 s2) (h2 : StoreExt wfId eid s2 s3) :
    StoreExt wfId eid s1 s3 := by
  obtain ⟨he1, hl1, L1, hr1, hw1⟩ := h1
  obtain ⟨he2, hl2, L2, hr2, hw2⟩ := h2
  refine ⟨he2.trans he1, hl2.trans hl1, L1 ++ L2, ?_, ?_⟩
  · rw [hr2, hr1, List.append_assoc]
  · intro wr hwr
    rcases List.mem_append.mp hwr with h | h
    · exact hw1 wr h
    · exact hw2 wr h

/-- Helper: `updateExecutionState` is a `StoreExt` step. -/
theorem StoreExt_update (wfId eid : String) (st : WorkflowExecutionState) (s : Stores) :
    StoreExt wfId eid s (updateExecutionState wfId eid st s) := by
  refine ⟨rfl, rfl, [{ key := stateKey wfId eid, state := st, ttl := 3600 }], rfl, ?_⟩
  intro wr hwr
  simp only [List.mem_singleton] at hwr
  subst hwr
  exact ⟨rfl, rfl⟩

/-- Helper: a Redis key readable before a `StoreExt` step is readable after. -/
theorem StoreExt_redisGet_isSome {wfId eid : String} {s s' : Stores}
    (h : StoreExt wfId eid s s') (k : String) (hk : (redisGet s k).isSome) :
    (redisGet s' k).isSome := by
  obtain ⟨_, _, L, hr, _⟩ := h
  simp only [redisGet, Option.isSome_map] at hk ⊢
  rw [hr, List.filter_append]
  rcases hlast : (s.redisLog.filter (fun wr => wr.key == k)).getLast? with _ | wr
  · rw [hlast] at hk; simp at hk
  · have hne : s.redisLog.filter (fun wr => wr.key == k) ≠ [] := by
      intro hnil; rw [hnil] at hlast; simp at hlast
    rcases hlast2 : ((s.redisLog.filter (fun wr => wr.key == k)) ++
        (L.filter (fun wr => wr.key == k))).getLast? with _ | wr2
    · have := List.getLast?_eq_none_iff.mp hlast2
      simp only [List.append_eq_nil] at this
      exact absurd this.1 hne
    · simp

/-! ## Claim C5: transform fallback passes the input through -/

/-- C5: for every transform node whose user-supplied expression throws during
evaluation (modelled by the oracle returning `none`, covering both the
`new Function` construction and the call), `transformData` returns the input
unchanged and raises nothing; moreover an execution whose transform node
throws (the always-throwing oracle `deThrow`) still completes: the run ends
with durable status `completed`, result equal to the input passed through,
and no recorded error. -/
theorem c5_transform_fallback (dE : TransEval) (tt code : String) (input : Value)
    (h : dE code input = none) :
    transformData dE tt code input = input ∧
    (finalStores (startAndRun 4 aeDummy ceTrue deThrow [wfTransform code] "w" input "u" "e1"
        {})).map (fun s => (execStatus s "e1", execResult s "e1", execError s "e1")) =
      some (some "completed", some (some input), some none) := by
  constructor
  · simp [transformData, h]
  · rfl

/-- Witness for C5 at a concrete throwing transform. -/
theorem c5_witness :
    deThrow "throw 1" Value.null = none ∧
    (transformData deThrow "map" "throw 1" Value.null = Value.null ∧
      (finalStores (startAndRun 4 aeDummy ceTrue deThrow [wfTransform "throw 1"] "w"
          Value.null "u" "e1" {})).map
        (fun s => (execStatus s "e1", execResult s "e1", execError s "e1")) =
        some (some "completed", some (some Value.null), some none)) :=
  ⟨rfl, c5_transform_fallback deThrow "map" "throw 1" Value.null rfl⟩

/-! ## Claim C7: condition evaluator exceptions -/

/-- C7 counterexample: a condition node whose expression throws does not fail
the execution with a condition-evaluation error; the thrown evaluation is
silently coerced to `false`, the run follows the `false` edge (output `F`
gets a node result) and finishes `completed` with no error recorded anywhere. -/
theorem c7_counterexample :
    ceThrow "c" Value.null = none ∧
    evaluateCondition ceThrow "c" Value.null = false ∧
    (finalStores (startAndRun 10 aeDummy ceThrow deId [wfBranch] "w" Value.null "u" "e1"
        {})).map (fun s => (execStatus s "e1", execError s "e1")) =
      some (some "completed", some none) ∧
    (finalStores (startAndRun 10 aeDummy ceThrow deId [wfBranch] "w" Value.null "u" "e1"
        {})).bind (fun s => visitedKeys s "w" "e1") = some ["T", "F", "C"] :=
  ⟨rfl, rfl, rfl, rfl⟩

/-- C7 amended: when the evaluator throws on a condition expression, the
condition handler returns `false` — the exception is logged and swallowed
(both the inner catch of the generated function and the outer catch of
`evaluateCondition` return `false`), and no error reaches the coordinator. -/
theorem c7_condition_error_false (cE : CondEval) (condition : String) (input : Value)
    (h : cE condition input = none) :
    evaluateCondition cE condition input = false := by
  simp [evaluateCondition, h]

/-- Witness for C7 at a concrete throwing condition. -/
theorem c7_witness :
    ceThrow "input.x > 1" Value.null = none ∧
    evaluateCondition ceThrow "input.x > 1" Value.null = false :=
  ⟨rfl, c7_condition_error_false ceThrow "input.x > 1" Value.null rfl⟩

/-! ## Claim C10: unknown workflow leaves the stores untouched -/

/-- C10: when no workflow row matches the requested id and owner, starting an
execution throws (`Workflow not found`) before inserting any execution record
and before writing any ephemeral state: the returned stores are exactly the
input stores. -/
theorem c10_not_found (db : List Workflow) (workflowId : String) (input : Value)
    (userId freshId : String) (s : Stores)
    (h : db.filter (fun w => w.id == workflowId && w.user_id == userId) = []) :
    executeWorkflowF db workflowId input userId freshId s = (.error "Workflow not found", s) := by
  simp only [executeWorkflowF, h]

/-- Witness for C10: a database holding only an unrelated workflow. -/
theorem c10_witness :
    ([wfBranch].filter (fun w => w.id == "nope" && w.user_id == "u") = []) ∧
    executeWorkflowF [wfBranch] "nope" Value.null "u" "e1" {} =
      (.error "Workflow not found", ({} : Stores)) :=
  ⟨rfl, c10_not_found [wfBranch] "nope" Value.null "u" "e1" {} rfl⟩

/-! ## Claim C2: condition branching executes the unselected branch -/

/-- C2 (code bug): in `wfBranch` the condition evaluates to `true`, so only
the `true` edge's target `N` should run — but after the `condition` case of
the `switch` has already processed the selected branch, `processNode` falls
through to the generic tail and also follows `edges[0]`, the `false` edge,
executing its target `F`: the final node-result keys are
`["T", "N", "C", "F"]` and the run completes with `F` visited. -/
theorem c2_false_branch_executed :
    evaluateCondition ceTrue "c" Value.null = true ∧
    (finalStores (startAndRun 10 aeDummy ceTrue deId [wfBranch] "w" Value.null "u" "e1"
        {})).bind (fun s => visitedKeys s "w" "e1") = some ["T", "N", "C", "F"] ∧
    (finalStores (startAndRun 10 aeDummy ceTrue deId [wfBranch] "w" Value.null "u" "e1"
        {})).map (fun s => execStatus s "e1") = some (some "completed") :=
  ⟨rfl, rfl, rfl⟩

/-! ## Claim C1 counterexample: a valid linear chain that fails -/

/-- C1 counterexample: `wfCondChain` is a valid workflow forming a single
linear chain `T -> C -> O` (one trigger, every node reachable, each node has
at most one outgoing edge), yet executing it does not complete: the
`condition` node's single unlabeled edge matches neither branch label, so the
run terminates `failed` with the no-edge error instead of running the chain
to `O`. -/
theorem c1_counterexample :
    (finalStores (startAndRun 10 aeDummy ceTrue deId [wfCondChain] "w" Value.null "u" "e1"
        {})).map (fun s => (execStatus s "e1", execError s "e1")) =
      some (some "failed", some (some "No edge found for condition result: true")) ∧
    (finalStores (startAndRun 10 aeDummy ceTrue deId [wfCondChain] "w" Value.null "u" "e1"
        {})).bind (fun s => visitedKeys s "w" "e1") = some ["T"] :=
  ⟨rfl, rfl⟩

/-! ## Claim C3 counterexample: two triggers are not rejected -/

/-- C3 counterexample: a workflow with two trigger nodes is not rejected and
never produces an invalid-graph failure: the engine silently starts from the
first trigger found, the durable record passes through `pending`, `running`
and ends `completed`. -/
theorem c3_counterexample :
    (finalStores (startAndRun 10 aeDummy ceTrue deId [wfTwoTriggers] "w" Value.null "u" "e1"
        {})).map (fun s => (execStatus s "e1", s.statusLog)) =
      some (some "completed", [("e1", "pending"), ("e1", "running"), ("e1", "completed")]) :=
  rfl

/-! ## Claim C4: cycles are traversed forever -/

/-- Helper: once the traversal is inside a `loopOk` set of transform nodes,
`processNode` recurses forever — it yields `div` for every amount of fuel. -/
theorem processNode_loop_div (aE : AgentExec) (cE : CondEval) (dE : TransEval)
    (uid wfId eid : String) (w : Workflow) (S : List String)
    (hS : loopOk w S = true) :
    ∀ (fuel : Nat) (id : String) (input : Value) (st : WorkflowExecutionState) (s : Stores),
      id ∈ S → processNodeF aE cE dE uid wfId eid w fuel id input st s = .div := by
  intro fuel
  induction fuel with
  | zero => intro id input st s _; rfl
  | succ f ih =>
      intro id input st s hid
      have hall : S.all _ = true := (Bool.and_eq_true _ _ |>.mp hS).2
      have hp := List.all_eq_true.mp hall id hid
      rcases hfn : findNode w id with _ | n
      · rw [hfn] at hp; simp at hp
      · rw [hfn] at hp
        simp only [Bool.and_eq_true, beq_iff_eq] at hp
        obtain ⟨htype, hedge⟩ := hp
        rcases hed : edgesFrom w id with _ | ⟨e, es⟩
        · rw [hed] at hedge; simp at hedge
        · rw [hed] at hedge
          have hmem : e.target ∈ S := by simpa using hedge
          simp only [processNodeF, hfn, htype, hed]
          exact ih e.target _ _ _ hmem

/-- Helper: a trigger node whose first outgoing edge enters a `loopOk` set
diverges for every fuel. -/
theorem processNode_trigger_entry_div (aE : AgentExec) (cE : CondEval) (dE : TransEval)
    (uid wfId eid : String) (w : Workflow) (S : List String) (id : String) (n : Node)
    (e : Edge) (es : List Edge)
    (hS : loopOk w S = true)
    (hfn : findNode w id = some n)
    (ht : n.type = "trigger")
    (he : edgesFrom w id = e :: es)
    (hmem : e.target ∈ S) :
    ∀ (fuel : Nat) (input : Value) (st : WorkflowExecutionState) (s : Stores),
      processNodeF aE cE dE uid wfId eid w fuel id input st s = .div := by
  intro fuel input st s
  cases fuel with
  | zero => rfl
  | succ f =>
      simp only [processNodeF, hfn, ht, he]
      exact processNode_loop_div aE cE dE uid wfId eid w S hS f e.target _ _ _ hmem

/-- C4 amended: a workflow whose trigger's first outgoing edge enters a set of
transform nodes closed under edge-following (a cycle reachable from the
trigger) never terminates: for every fuel the background run is still
unfinished.  The engine has no step-count ceiling and no cycle detection —
no code path produces a graph-cycle error — so the traversal loops forever
instead of failing. -/
theorem c4_cycle_diverges (fuel : Nat) (aE : AgentExec) (cE : CondEval) (dE : TransEval)
    (wfId eid uid : String) (w : Workflow) (S : List String) (trig : Node) (e : Edge)
    (es : List Edge) (s : Stores) (st0 : WorkflowExecutionState)
    (hS : loopOk w S = true)
    (htrig : w.nodes.find? (fun n => n.type == "trigger") = some trig)
    (hfind : findNode w trig.id = some trig)
    (htt : trig.type = "trigger")
    (he : edgesFrom w trig.id = e :: es)
    (hmem : e.target ∈ S)
    (hstate : redisGet s (stateKey wfId eid) = some st0) :
    runWorkflowF fuel aE cE dE wfId eid w uid s = none := by
  simp only [runWorkflowF, redisGet_dbUpdate, hstate, htrig]
  rw [processNode_trigger_entry_div aE cE dE uid wfId eid w S trig.id trig e es hS hfind htt
    he hmem]

/-- C4 counterexample: the cyclic fixture `wfCycle` (trigger into the
transform cycle `A -> B -> A`) diverges for every fuel: the run never reaches
any terminal status, so in particular it never fails with a cycle error
within any step ceiling. -/
theorem c4_counterexample : cycClaim := by
  intro fuel
  have hst : redisGet cycStores (stateKey "w" "e1") = some (pendingState .null) := rfl
  have htrig : wfCycle.nodes.find? (fun n => n.type == "trigger") =
      some { id := "T", type := "trigger" } := rfl
  simp only [runWorkflowF, redisGet_dbUpdate, hst, htrig]
  rw [processNode_trigger_entry_div aeDummy ceTrue deId "u" "w" "e1" wfCycle ["A", "B"] "T"
    { id := "T", type := "trigger" } { source := "T", target := "A" } [] rfl rfl rfl rfl
    (by simp)]

/-- Witness for C4 at the concrete cyclic fixture with fuel 9. -/
theorem c4_witness :
    loopOk wfCycle ["A", "B"] = true ∧
    runWorkflowF 9 aeDummy ceTrue deId "w" "e1" wfCycle "u" cycStores = none :=
  ⟨rfl, c4_cycle_diverges 9 aeDummy ceTrue deId "w" "e1" "u" wfCycle ["A", "B"]
    { id := "T", type := "trigger" } { source := "T", target := "A" } [] cycStores
    (pendingState .null) rfl rfl rfl rfl rfl (by simp) rfl⟩

/-- C3 amended: a workflow with no trigger node does fail (terminal `failed`,
error `No trigger node found in workflow`), but only after the execution's
durable record has already been set to `running` — the status history of the
run is `running` followed by `failed`; and (second conjunct) a workflow with
two trigger nodes is not rejected at all: the engine starts from the first
trigger and completes normally. -/
theorem c3_no_trigger (fuel : Nat) (aE : AgentExec) (cE : CondEval) (dE : TransEval)
    (wfId eid uid : String) (w : Workflow) (s : Stores) (st0 : WorkflowExecutionState)
    (h : ∀ n ∈ w.nodes, n.type ≠ "trigger")
    (hstate : redisGet s (stateKey wfId eid) = some st0) :
    (∃ s', runWorkflowF fuel aE cE dE wfId eid w uid s = some s' ∧
      s'.statusLog = s.statusLog ++ [(eid, "running"), (eid, "failed")] ∧
      redisGet s' (stateKey wfId eid) =
        some { st0 with status := "failed",
                        error := some "No trigger node found in workflow" }) ∧
    (finalStores (startAndRun 10 aeDummy ceTrue deId [wfTwoTriggers] "w" Value.null "u" "e1"
        {})).map (fun x => execStatus x "e1") = some (some "completed") := by
  have hfind : w.nodes.find? (fun n => n.type == "trigger") = none := by
    apply List.find?_eq_none.mpr
    intro n hn
    simpa using h n hn
  refine ⟨⟨failPath (dbUpdateStatus s eid "running" none none) wfId eid
      "No trigger node found in workflow", ?_, ?_, ?_⟩, rfl⟩
  · simp only [runWorkflowF, redisGet_dbUpdate, hstate, hfind]
  · simp only [failPath, redisGet_dbUpdate, hstate]
    simp [dbUpdateStatus, updateExecutionState, redisSet]
  · simp only [failPath, redisGet_dbUpdate, hstate, updateExecutionState, redisGet_set]

/-- Witness for C3 at the concrete trigger-less fixture. -/
theorem c3_witness :
    (∀ n ∈ wfNoTrigger.nodes, n.type ≠ "trigger") ∧
    ((∃ s', runWorkflowF 5 aeDummy ceTrue deId "w" "e1" wfNoTrigger "u" s0WithState =
        some s' ∧
      s'.statusLog = s0WithState.statusLog ++ [("e1", "running"), ("e1", "failed")] ∧
      redisGet s' (stateKey "w" "e1") =
        some { (pendingState .null) with
                status := "failed",
                error := some "No trigger node found in workflow" }) ∧
    (finalStores (startAndRun 10 aeDummy ceTrue deId [wfTwoTriggers] "w" Value.null "u" "e1"
        {})).map (fun x => execStatus x "e1") = some (some "completed")) :=
  ⟨by decide, c3_no_trigger 5 aeDummy ceTrue deId "w" "e1" "u" wfNoTrigger s0WithState
    (pendingState .null) (by decide) rfl⟩

/-! ## How `processNode` touches the stores -/

/-- Helper: `processNode` never touches the durable table or its status
history, and only appends Redis writes for this execution's state key, every
one with the 1-hour TTL. -/
theorem processNodeF_stores (aE : AgentExec) (cE : CondEval) (dE : TransEval)
    (uid wfId eid : String) (w : Workflow) :
    ∀ (fuel : Nat) (nodeId : String) (input : Value) (st : WorkflowExecutionState)
      (s s' : Stores),
      presStores (processNodeF aE cE dE uid wfId eid w fuel nodeId input st s) = some s' →
      StoreExt wfId eid s s' := by
  intro fuel
  induction fuel with
  | zero => intro nodeId input st s s' h; simp [processNodeF, presStores] at h
  | succ f ih =>
      intro nodeId input st s s' h
      simp only [processNodeF] at h
      split at h
      next hfn =>
        simp only [presStores, Option.some.injEq] at h
        exact h ▸ StoreExt_refl wfId eid s
      next node hfn =>
        split at h
        · simp [presStores] at h
        · -- thrown error: the switch produced `.err e st2 s2`
          next e st2 s2 heq =>
            simp only [presStores, Option.some.injEq] at h
            subst h
            refine StoreExt_trans
              (StoreExt_update wfId eid { st with currentNodeId := some nodeId } s) ?_
            split at heq
            · simp at heq
            · split at heq
              · simp at heq
              · cases heq; exact StoreExt_refl wfId eid _
            · split at heq
              · cases heq; exact StoreExt_refl wfId eid _
              · exact ih _ _ _ _ _ (by rw [heq]; rfl)
            · simp at heq
            · simp at heq
            · cases heq; exact StoreExt_refl wfId eid _
        · -- returned value: the switch produced `.ok v st2 s2`, then the tail runs
          next v st2 s2 heq =>
            have hext : StoreExt wfId eid
                (updateExecutionState wfId eid { st with currentNodeId := some nodeId } s) s2 := by
              split at heq
              · cases heq; exact StoreExt_refl wfId eid _
              · split at heq
                · cases heq; exact StoreExt_refl wfId eid _
                · simp at heq
              · split at heq
                · simp at heq
                · exact ih _ _ _ _ _ (by rw [heq]; rfl)
              · cases heq; exact StoreExt_refl wfId eid _
              · cases heq; exact StoreExt_refl wfId eid _
              · simp at heq
            have hbase : StoreExt wfId eid s (updateExecutionState wfId eid
                { st2 with nodeResults := setResult st2.nodeResults nodeId v } s2) :=
              StoreExt_trans (StoreExt_trans
                  (StoreExt_update wfId eid { st with currentNodeId := some nodeId } s) hext)
                (StoreExt_update wfId eid
                  { st2 with nodeResults := setResult st2.nodeResults nodeId v } s2)
            split at h
            · simp only [presStores, Option.some.injEq] at h
              exact h ▸ hbase
            · split at h
              · simp only [presStores, Option.some.injEq] at h
                exact h ▸ hbase
              · exact StoreExt_trans hbase (ih _ _ _ _ _ h)

/-- Helper: finding by id through a map that only rewrites the matching
records (and preserves ids). -/
theorem find?_update_exec (eid : String) (upd : ExecRecord → ExecRecord)
    (hid : ∀ r, (upd r).id = r.id) :
    ∀ l : List ExecRecord,
      (l.map (fun r => if r.id == eid then upd r else r)).find? (fun r => r.id == eid) =
        (l.find? (fun r => r.id == eid)).map upd
  | [] => rfl
  | r :: rest => by
      rcases hr : r.id == eid with _ | _
      · simp only [List.map_cons, List.find?_cons, hr, Bool.false_eq_true, if_false]
        exact find?_update_exec eid upd hid rest
      · simp only [List.map_cons, List.find?_cons, hr, if_true]
        simp [hid, hr]

/-- Helper: what the executions table answers after `dbUpdateStatus`. -/
theorem exec_find_dbUpdate (s : Stores) (eid status : String) (res : Option Value)
    (err : Option String) :
    (dbUpdateStatus s eid status res err).executions.find? (fun r => r.id == eid) =
      (s.executions.find? (fun r => r.id == eid)).map (fun r =>
        { r with status := status,
                 result := match res with | some v => some v | none => r.result,
                 error := match err with | some e0 => some e0 | none => r.error }) := by
  simp only [dbUpdateStatus]
  exact find?_update_exec eid
    (fun r =>
      { r with status := status,
               result := match res with | some v => some v | none => r.result,
               error := match err with | some e0 => some e0 | none => r.error })
    (fun r => rfl) s.executions

/-! ## Claim C6: handler errors persist a terminal failure -/

/-- C6: when processing from the trigger throws (any node handler error:
agent failure, missing node, missing branch edge, unsupported type), the
run's catch persists the failure: the durable row is updated to terminal
status `failed` with the error message recorded, and the ephemeral state is
rewritten as `failed` carrying the same message — the execution is never left
`running` after the exception. -/
theorem c6_handler_failure (fuel : Nat) (aE : AgentExec) (cE : CondEval) (dE : TransEval)
    (wfId eid uid : String) (w : Workflow) (s : Stores) (st0 : WorkflowExecutionState)
    (trig : Node) (e : String) (stE : WorkflowExecutionState) (sE : Stores) (r0 : ExecRecord)
    (hstate : redisGet s (stateKey wfId eid) = some st0)
    (htrig : w.nodes.find? (fun n => n.type == "trigger") = some trig)
    (hrec : s.executions.find? (fun x => x.id == eid) = some r0)
    (hrun : processNodeF aE cE dE uid wfId eid w fuel trig.id st0.input
        { st0 with status := "running", currentNodeId := some trig.id }
        (updateExecutionState wfId eid
          { st0 with status := "running", currentNodeId := some trig.id }
          (dbUpdateStatus s eid "running" none none)) = .err e stE sE) :
    runWorkflowF fuel aE cE dE wfId eid w uid s = some (failPath sE wfId eid e) ∧
    execStatus (failPath sE wfId eid e) eid = some "failed" ∧
    execError (failPath sE wfId eid e) eid = some (some e) ∧
    ∃ stF, redisGet (failPath sE wfId eid e) (stateKey wfId eid) = some stF ∧
      stF.status = "failed" ∧ stF.error = some e := by
  have hext : StoreExt wfId eid
      (updateExecutionState wfId eid
        { st0 with status := "running", currentNodeId := some trig.id }
        (dbUpdateStatus s eid "running" none none)) sE :=
    processNodeF_stores aE cE dE uid wfId eid w fuel trig.id st0.input _ _ sE
      (by rw [hrun]; rfl)
  have hmid : (redisGet sE (stateKey wfId eid)).isSome := by
    apply StoreExt_redisGet_isSome hext
    simp [updateExecutionState, redisGet_set]
  obtain ⟨stMid, hstMid⟩ := Option.isSome_iff_exists.mp hmid
  have hexeE : sE.executions = (dbUpdateStatus s eid "running" none none).executions := hext.1
  have hfindE : ∃ rE, sE.executions.find? (fun x => x.id == eid) = some rE := by
    rw [hexeE, exec_find_dbUpdate, hrec]
    exact ⟨_, rfl⟩
  obtain ⟨rE, hrE⟩ := hfindE
  refine ⟨?_, ?_, ?_, ?_⟩
  · simp only [runWorkflowF, redisGet_dbUpdate, hstate, htrig]
    rw [hrun]
  · simp only [failPath, hstMid, execStatus]
    rw [exec_find_dbUpdate]
    simp only [updateExecutionState, redisSet]
    rw [hrE]
    rfl
  · simp only [failPath, hstMid, execError]
    rw [exec_find_dbUpdate]
    simp only [updateExecutionState, redisSet]
    rw [hrE]
    rfl
  · refine ⟨{ stMid with status := "failed", error := some e }, ?_, rfl, rfl⟩
    simp only [failPath, hstMid, redisGet_dbUpdate, updateExecutionState, redisGet_set]

/-- Witness for C6: a failing agent node, with the error persisted as a
terminal failure. -/
theorem c6_witness :
    ∃ (stE : WorkflowExecutionState) (sE : Stores),
      processNodeF aeFail ceTrue deId "u" "w" "e1" wfAgent 5 "T"
          (pendingState Value.null).input
          { (pendingState Value.null) with status := "running", currentNodeId := some "T" }
          (updateExecutionState "w" "e1"
            { (pendingState Value.null) with status := "running", currentNodeId := some "T" }
            (dbUpdateStatus c6Stores "e1" "running" none none)) = .err "agent boom" stE sE ∧
      (runWorkflowF 5 aeFail ceTrue deId "w" "e1" wfAgent "u" c6Stores =
          some (failPath sE "w" "e1" "agent boom") ∧
        execStatus (failPath sE "w" "e1" "agent boom") "e1" = some "failed" ∧
        execError (failPath sE "w" "e1" "agent boom") "e1" = some (some "agent boom") ∧
        ∃ stF, redisGet (failPath sE "w" "e1" "agent boom") (stateKey "w" "e1") = some stF ∧
          stF.status = "failed" ∧ stF.error = some "agent boom") :=
  ⟨_, _, rfl, c6_handler_failure 5 aeFail ceTrue deId "w" "e1" "u" wfAgent c6Stores
    (pendingState Value.null) { id := "T", type := "trigger" } "agent boom" _ _
    { id := "e1", workflow_id := "w", user_id := "u", status := "pending",
      input := Value.null } rfl rfl rfl rfl⟩

/-! ## Claim C9: every ephemeral write carries the 1-hour TTL -/

/-- Helper: a `StoreExt` step preserves the TTL invariant. -/
theorem allTTL_StoreExt {wfId eid : String} {s s' : Stores}
    (hext : StoreExt wfId eid s s') (h : allTTL s) : allTTL s' := by
  obtain ⟨_, _, L, hr, hw⟩ := hext
  intro wr hwr
  rw [hr] at hwr
  rcases List.mem_append.mp hwr with hm | hm
  · exact h wr hm
  · exact (hw wr hm).2

/-- Helper: durable-table updates do not touch the Redis log. -/
theorem allTTL_dbUpdate (s : Stores) (eid status : String) (res : Option Value)
    (err : Option String) (h : allTTL s) :
    allTTL (dbUpdateStatus s eid status res err) := h

/-- Helper: `updateExecutionState` writes with TTL 3600. -/
theorem allTTL_update (wfId eid : String) (st : WorkflowExecutionState) (s : Stores)
    (h : allTTL s) : allTTL (updateExecutionState wfId eid st s) := by
  intro wr hwr
  simp only [updateExecutionState, redisSet, List.mem_append, List.mem_singleton] at hwr
  rcases hwr with hm | hm
  · exact h wr hm
  · rw [hm]

/-- Helper: the failure path writes with TTL 3600. -/
theorem allTTL_failPath (s : Stores) (wfId eid msg : String) (h : allTTL s) :
    allTTL (failPath s wfId eid msg) := by
  unfold failPath
  rcases hget : redisGet s (stateKey wfId eid) with _ | st
  · exact allTTL_dbUpdate _ _ _ _ _ h
  · exact allTTL_dbUpdate _ _ _ _ _ (allTTL_update _ _ _ _ h)

/-- Helper: a finished `runWorkflow` only ever wrote 1-hour TTLs. -/
theorem runWorkflowF_allTTL (fuel : Nat) (aE : AgentExec) (cE : CondEval) (dE : TransEval)
    (wfId eid uid : String) (w : Workflow) (s s' : Stores)
    (h : runWorkflowF fuel aE cE dE wfId eid w uid s = some s') (hs : allTTL s) :
    allTTL s' := by
  simp only [runWorkflowF] at h
  split at h
  · cases h
    exact allTTL_failPath _ _ _ _ (allTTL_dbUpdate _ _ _ _ _ hs)
  · split at h
    · cases h
      exact allTTL_failPath _ _ _ _ (allTTL_dbUpdate _ _ _ _ _ hs)
    · split at h
      · exact absurd h (by simp)
      · next e stE sE heq =>
          cases h
          have hext := processNodeF_stores aE cE dE uid wfId eid w fuel _ _ _ _ sE
            (by rw [heq]; rfl)
          exact allTTL_failPath _ _ _ _ (allTTL_StoreExt hext
            (allTTL_update _ _ _ _ (allTTL_dbUpdate _ _ _ _ _ hs)))
      · next v stE sE heq =>
          cases h
          have hext := processNodeF_stores aE cE dE uid wfId eid w fuel _ _ _ _ sE
            (by rw [heq]; rfl)
          exact allTTL_dbUpdate _ _ _ _ _ (allTTL_update _ _ _ _ (allTTL_StoreExt hext
            (allTTL_update _ _ _ _ (allTTL_dbUpdate _ _ _ _ _ hs))))

/-- C9: every Redis write of a full run started on empty stores — the initial
write at execution creation and the write at every node boundary — sets a
retention TTL of exactly 3600 seconds. -/
theorem c9_ttl (fuel : Nat) (aE : AgentExec) (cE : CondEval) (dE : TransEval)
    (db : List Workflow) (wfId : String) (input : Value) (uid freshId eid : String)
    (s' : Stores)
    (h : startAndRun fuel aE cE dE db wfId input uid freshId {} = .ok (eid, some s')) :
    allTTL s' := by
  simp only [startAndRun] at h
  split at h
  · cases h
  · next w eidW s1 heq =>
      simp only [Except.ok.injEq, Prod.mk.injEq] at h
      obtain ⟨heid, hrun⟩ := h
      subst heid
      have hs1 : allTTL s1 := by
        revert heq
        unfold executeWorkflowF
        split
        · intro heq
          simp only [Prod.mk.injEq] at heq
          obtain ⟨-, hst⟩ := heq
          subst hst
          intro wr hwr
          simp only [redisSet, dbInsert, List.mem_append, List.mem_singleton] at hwr
          rcases hwr with hm | hm
          · simp at hm
          · rw [hm]
        · intro heq
          simp at heq
      exact runWorkflowF_allTTL fuel aE cE dE wfId _ uid w s1 s' hrun hs1

/-- Witness for C9 at a concrete finished run of the three-node chain. -/
theorem c9_witness :
    ∃ s', startAndRun 5 aeDummy ceTrue deId [wfChain3] "w" Value.null "u" "e1" {} =
        .ok ("e1", some s') ∧ allTTL s' :=
  ⟨_, rfl, c9_ttl 5 aeDummy ceTrue deId [wfChain3] "w" Value.null "u" "e1" "e1" _ rfl⟩

/-! ## Claim C1: linear chains without condition nodes run to completion -/

/-- Helper: the last node id of a chain steps past the head. -/
theorem lastNodeId_cons (n m : Node) (ns : List Node) :
    lastNodeId n (m :: ns) = lastNodeId m ns := rfl

/-- Helper: processing from the head of a `LinearChain` runs every handler in
chain order, threading each output into the next node's input, returns the
folded final value, and appends one node result per chain node in traversal
order. -/
theorem processNode_chain (aE : AgentExec) (cE : CondEval) (dE : TransEval)
    (uid wfId eid : String) (w : Workflow) :
    ∀ (n : Node) (ns : List Node), LinearChain w aE uid n ns →
      ∀ (fuel : Nat) (input : Value) (st : WorkflowExecutionState) (s : Stores),
        ns.length < fuel →
        findNode w n.id = some n →
        ((n :: ns).map Node.id).Nodup →
        (∀ nd ∈ n :: ns, ∀ p ∈ st.nodeResults, p.1 ≠ nd.id) →
        ∃ s', processNodeF aE cE dE uid wfId eid w fuel n.id input st s =
          .ok (chainFinal aE dE uid input (n :: ns))
            { st with currentNodeId := some (lastNodeId n ns),
                      nodeResults := st.nodeResults ++ chainResults aE dE uid input (n :: ns) }
            s' := by
  intro n ns hc
  induction hc with
  | last n hok hstop =>
      intro fuel input st s hfuel hfind hnodup hfresh
      obtain ⟨f, rfl⟩ : ∃ f, fuel = f + 1 := ⟨fuel - 1, by omega⟩
      have hfr : ∀ p ∈ st.nodeResults, p.1 ≠ n.id := hfresh n (by simp)
      have hset : setResult st.nodeResults n.id (stepOut aE dE uid n input) =
          st.nodeResults ++ [(n.id, stepOut aE dE uid n input)] :=
        setResult_fresh _ _ _ hfr
      rcases hok with htype | htype | htype | ⟨htype, hagent⟩
      · rcases hstop with houtput | hedges
        · rw [htype] at houtput; exact absurd houtput (by decide)
        · refine ⟨updateExecutionState wfId eid
            { st with currentNodeId := some n.id,
                      nodeResults := st.nodeResults ++ [(n.id, input)] }
            (updateExecutionState wfId eid { st with currentNodeId := some n.id } s), ?_⟩
          simp only [processNodeF, hfind, htype, hedges]
          rw [setResult_fresh _ _ _ hfr]
          simp [chainFinal, chainResults, stepOut, lastNodeId, htype]
      · rcases hstop with houtput | hedges
        · rw [htype] at houtput; exact absurd houtput (by decide)
        · refine ⟨updateExecutionState wfId eid
            { st with currentNodeId := some n.id,
                      nodeResults := st.nodeResults ++ [(n.id, transformData dE n.data.transformType n.data.code input)] }
            (updateExecutionState wfId eid { st with currentNodeId := some n.id } s), ?_⟩
          simp only [processNodeF, hfind, htype, hedges]
          rw [setResult_fresh _ _ _ hfr]
          simp [chainFinal, chainResults, stepOut, lastNodeId, htype]
      · rcases hedges2 : edgesFrom w n.id with _ | ⟨e, es⟩
        · refine ⟨updateExecutionState wfId eid
            { st with currentNodeId := some n.id,
                      nodeResults := st.nodeResults ++ [(n.id, formatOutput n.data.format n.data.template input)] }
            (updateExecutionState wfId eid { st with currentNodeId := some n.id } s), ?_⟩
          simp only [processNodeF, hfind, htype, hedges2]
          rw [setResult_fresh _ _ _ hfr]
          simp [chainFinal, chainResults, stepOut, lastNodeId, htype]
        · refine ⟨updateExecutionState wfId eid
            { st with currentNodeId := some n.id,
                      nodeResults := st.nodeResults ++ [(n.id, formatOutput n.data.format n.data.template input)] }
            (updateExecutionState wfId eid { st with currentNodeId := some n.id } s), ?_⟩
          simp only [processNodeF, hfind, htype, hedges2]
          rw [setResult_fresh _ _ _ hfr]
          simp [chainFinal, chainResults, stepOut, lastNodeId, htype]
      · rcases hstop with houtput | hedges
        · rw [htype] at houtput; exact absurd houtput (by decide)
        · obtain ⟨v, hv⟩ := hagent input
          refine ⟨updateExecutionState wfId eid
            { st with currentNodeId := some n.id,
                      nodeResults := st.nodeResults ++ [(n.id, v)] }
            (updateExecutionState wfId eid { st with currentNodeId := some n.id } s), ?_⟩
          simp only [processNodeF, hfind, htype, hedges, hv]
          rw [setResult_fresh _ _ _ hfr]
          simp [chainFinal, chainResults, stepOut, lastNodeId, htype, hv]
  | step n m ns e hok hne he ht hm tail ih =>
      intro fuel input st s hfuel hfind hnodup hfresh
      obtain ⟨f, rfl⟩ : ∃ f, fuel = f + 1 := ⟨fuel - 1, by omega⟩
      have hfr : ∀ p ∈ st.nodeResults, p.1 ≠ n.id := hfresh n (by simp)
      have hnodup1 : (n.id :: (m :: ns).map Node.id).Nodup := by simpa using hnodup
      have hnd2 : ((m :: ns).map Node.id).Nodup := (List.nodup_cons.mp hnodup1).2
      have hnid : ∀ nd ∈ m :: ns, nd.id ≠ n.id := by
        have h1 := (List.nodup_cons.mp hnodup1).1
        intro nd hnd heq
        exact h1 (heq ▸ List.mem_map_of_mem Node.id hnd)
      have hfresh2 : ∀ (r : Value), ∀ nd ∈ m :: ns,
          ∀ p ∈ st.nodeResults ++ [(n.id, r)], p.1 ≠ nd.id := by
        intro r nd hnd p hp
        rcases List.mem_append.mp hp with hp | hp
        · exact hfresh nd (List.mem_cons_of_mem _ hnd) p hp
        · simp only [List.mem_singleton] at hp
          rw [hp]
          exact fun hh => hnid nd hnd hh.symm
      have hlen : ns.length < f := by
        simp only [List.length_cons] at hfuel
        omega
      rcases hok with htype | htype | htype | ⟨htype, hagent⟩
      · obtain ⟨s', hs'⟩ := ih f input
          { st with currentNodeId := some n.id,
                    nodeResults := st.nodeResults ++ [(n.id, input)] }
          (updateExecutionState wfId eid
            { st with currentNodeId := some n.id,
                      nodeResults := st.nodeResults ++ [(n.id, input)] }
            (updateExecutionState wfId eid { st with currentNodeId := some n.id } s))
          hlen hm hnd2 (hfresh2 input)
        refine ⟨s', ?_⟩
        simp only [processNodeF, hfind, htype, he]
        rw [setResult_fresh _ _ _ hfr, ht, hs']
        simp [chainFinal, chainResults, stepOut, htype, lastNodeId_cons]
      · obtain ⟨s', hs'⟩ := ih f (transformData dE n.data.transformType n.data.code input)
          { st with currentNodeId := some n.id,
                    nodeResults := st.nodeResults ++
                      [(n.id, transformData dE n.data.transformType n.data.code input)] }
          (updateExecutionState wfId eid
            { st with currentNodeId := some n.id,
                      nodeResults := st.nodeResults ++
                        [(n.id, transformData dE n.data.transformType n.data.code input)] }
            (updateExecutionState wfId eid { st with currentNodeId := some n.id } s))
          hlen hm hnd2 (hfresh2 _)
        refine ⟨s', ?_⟩
        simp only [processNodeF, hfind, htype, he]
        rw [setResult_fresh _ _ _ hfr, ht, hs']
        simp [chainFinal, chainResults, stepOut, htype, lastNodeId_cons]
      · rw [htype] at hne
        exact absurd rfl hne
      · obtain ⟨v, hv⟩ := hagent input
        obtain ⟨s', hs'⟩ := ih f v
          { st with currentNodeId := some n.id,
                    nodeResults := st.nodeResults ++ [(n.id, v)] }
          (updateExecutionState wfId eid
            { st with currentNodeId := some n.id,
                      nodeResults := st.nodeResults ++ [(n.id, v)] }
            (updateExecutionState wfId eid { st with currentNodeId := some n.id } s))
          hlen hm hnd2 (hfresh2 v)
        refine ⟨s', ?_⟩
        simp only [processNodeF, hfind, htype, he, hv]
        rw [setResult_fresh _ _ _ hfr, ht, hs']
        simp [chainFinal, chainResults, stepOut, htype, lastNodeId_cons, hv]

/-- Helper: `updateExecutionState` does not touch the durable table. -/
theorem updateExecutionState_executions (wfId eid : String) (st : WorkflowExecutionState)
    (s : Stores) : (updateExecutionState wfId eid st s).executions = s.executions := rfl

/-- C1 amended: for every workflow whose database lookup succeeds and whose
trigger heads a `LinearChain` (a single linear chain of trigger, agent and
transform nodes, the final node possibly an `output`, agents always
succeeding), starting an execution runs the handlers in chain order, each
node's output becoming the next node's input, and the run terminates with
durable status `completed` and result equal to the folded final handler
output; the final ephemeral state records one node result per visited node in
traversal order. -/
theorem c1_linear_chain (fuel : Nat) (aE : AgentExec) (cE : CondEval) (dE : TransEval)
    (db : List Workflow) (wfId : String) (input : Value) (uid freshId : String)
    (w : Workflow) (trig : Node) (ns : List Node)
    (hdb : db.filter (fun x => x.id == wfId && x.user_id == uid) = [w])
    (htrig : w.nodes.find? (fun x => x.type == "trigger") = some trig)
    (hfind : findNode w trig.id = some trig)
    (hchain : LinearChain w aE uid trig ns)
    (hnodup : ((trig :: ns).map Node.id).Nodup)
    (hfuel : ns.length < fuel) :
    ∃ s', startAndRun fuel aE cE dE db wfId input uid freshId {} = .ok (freshId, some s') ∧
      execStatus s' freshId = some "completed" ∧
      execResult s' freshId = some (some (chainFinal aE dE uid input (trig :: ns))) ∧
      (redisGet s' (stateKey wfId freshId)).map
          (fun stF => (stF.status, stF.output, stF.nodeResults)) =
        some ("completed", chainFinal aE dE uid input (trig :: ns),
          chainResults aE dE uid input (trig :: ns)) := by
  obtain ⟨sP, hsP⟩ := processNode_chain aE cE dE uid wfId freshId w trig ns hchain fuel input
    { status := "running", currentNodeId := some trig.id, input := input,
      output := Value.obj [], nodeResults := [], error := none }
    (updateExecutionState wfId freshId
      { status := "running", currentNodeId := some trig.id, input := input,
        output := Value.obj [], nodeResults := [], error := none }
      (dbUpdateStatus
        (redisSet
          (dbInsert {}
            { id := freshId, workflow_id := wfId, user_id := uid,
              status := "pending", input := input, result := none, error := none })
          (stateKey wfId freshId)
          { status := "pending", currentNodeId := none, input := input,
            output := Value.obj [], nodeResults := [], error := none } 3600)
        freshId "running" none none))
    hfuel hfind hnodup (by intro nd _ p hp; simp at hp)
  have hext := processNodeF_stores aE cE dE uid wfId freshId w fuel trig.id input _ _ sP
    (by rw [hsP]; rfl)
  have hfindP : sP.executions.find? (fun r => r.id == freshId) =
      some { id := freshId, workflow_id := wfId, user_id := uid, status := "running",
             input := input, result := none, error := none } := by
    rw [hext.1]
    simp [updateExecutionState, redisSet, dbUpdateStatus, dbInsert]
  simp only [startAndRun, executeWorkflowF, hdb, runWorkflowF, redisGet_dbUpdate, redisGet_set,
    htrig, hsP]
  refine ⟨_, rfl, ?_, ?_, ?_⟩
  · simp only [execStatus]
    rw [exec_find_dbUpdate]
    simp only [updateExecutionState_executions]
    rw [hfindP]
    rfl
  · simp only [execResult]
    rw [exec_find_dbUpdate]
    simp only [updateExecutionState_executions]
    rw [hfindP]
    rfl
  · simp only [redisGet_dbUpdate, updateExecutionState, redisGet_set]
    simp

/-- Witness for C1 at the concrete chain trigger, transform, output. -/
theorem c1_witness :
    ∃ s', startAndRun 5 aeDummy ceTrue deId [wfChain3] "w" (Value.str "go") "u" "e1" {} =
        .ok ("e1", some s') ∧
      execStatus s' "e1" = some "completed" ∧
      execResult s' "e1" = some (some (chainFinal aeDummy deId "u" (Value.str "go")
        [{ id := "T", type := "trigger" },
         { id := "X", type := "transform", data := { code := "x" } },
         { id := "O", type := "output", data := { format := "json" } }])) ∧
      (redisGet s' (stateKey "w" "e1")).map
          (fun stF => (stF.status, stF.output, stF.nodeResults)) =
        some ("completed",
          chainFinal aeDummy deId "u" (Value.str "go")
            [{ id := "T", type := "trigger" },
             { id := "X", type := "transform", data := { code := "x" } },
             { id := "O", type := "output", data := { format := "json" } }],
          chainResults aeDummy deId "u" (Value.str "go")
            [{ id := "T", type := "trigger" },
             { id := "X", type := "transform", data := { code := "x" } },
             { id := "O", type := "output", data := { format := "json" } }]) :=
  c1_linear_chain 5 aeDummy ceTrue deId [wfChain3] "w" (Value.str "go") "u" "e1" wfChain3
    { id := "T", type := "trigger" }
    [{ id := "X", type := "transform", data := { code := "x" } },
     { id := "O", type := "output", data := { format := "json" } }]
    rfl rfl rfl
    (LinearChain.step { id := "T", type := "trigger" }
      { id := "X", type := "transform", data := { code := "x" } }
      [{ id := "O", type := "output", data := { format := "json" } }]
      { source := "T", target := "X" }
      (Or.inl rfl) (by decide) rfl rfl rfl
      (LinearChain.step { id := "X", type := "transform", data := { code := "x" } }
        { id := "O", type := "output", data := { format := "json" } } []
        { source := "X", target := "O" }
        (Or.inr (Or.inl rfl)) (by decide) rfl rfl rfl
        (LinearChain.last { id := "O", type := "output", data := { format := "json" } }
          (Or.inr (Or.inr (Or.inl rfl))) (Or.inl rfl))))
    (by decide) (by decide)

/-- Helper: the template scan of an empty character list is empty. -/
theorem renderAux_nil (input : Value) : ∀ f, renderAux input f [] = []
  | 0 => rfl
  | _ + 1 => rfl

/-- Helper: when the captured path contains no closing brace and no line
terminator, the first close found is exactly the one written after it. -/
theorem findClose_at_close :
    ∀ (path post : List Char), '}' ∉ path → '\n' ∉ path → '\r' ∉ path →
      findClose (path ++ ('}' :: '}' :: post)) = some (path, post)
  | [], post, _, _, _ => by simp [findClose]
  | c :: p, post, hc, hn, hr => by
      have hc1 : c ≠ '}' := fun h => hc (by simp [h])
      have hn1 : c ≠ '\n' := fun h => hn (by simp [h])
      have hr1 : c ≠ '\r' := fun h => hr (by simp [h])
      have hrec := findClose_at_close p post (fun h => hc (by simp [h]))
        (fun h => hn (by simp [h])) (fun h => hr (by simp [h]))
      simp only [List.cons_append, findClose]
      rw [if_neg (fun h => hc1 h.1), if_neg (by simp [hn1, hr1])]
      simp only [List.append_eq] at hrec ⊢
      rw [hrec]

/-- Helper: a successful close consumes the matched characters. -/
theorem findClose_length :
    ∀ (l p r : List Char), findClose l = some (p, r) → p.length + 2 + r.length = l.length
  | [], p, r, h => by simp [findClose] at h
  | c :: rest, p, r, h => by
      simp only [findClose] at h
      split at h
      · next hcond =>
          obtain ⟨hc, hh⟩ := hcond
          simp only [Option.some.injEq, Prod.mk.injEq] at h
          obtain ⟨hp, hr⟩ := h
          subst hp
          subst hr
          cases rest with
          | nil => simp at hh
          | cons c2 rest2 => simp; omega
      · split at h
        · simp at h
        · revert h
          rcases hfc : findClose rest with _ | ⟨p', r'⟩
          · intro h; simp at h
          · intro h
            simp only [Option.some.injEq, Prod.mk.injEq] at h
            obtain ⟨hp, hr⟩ := h
            subst hp
            subst hr
            have := findClose_length rest p' r' hfc
            simp only [List.length_cons]
            omega

/-- Helper: the template scan does not depend on the fuel once the fuel
covers the character count. -/
theorem renderAux_fuel (input : Value) :
    ∀ (N : Nat) (l : List Char) (f1 f2 : Nat), l.length ≤ N → l.length ≤ f1 →
      l.length ≤ f2 → renderAux input f1 l = renderAux input f2 l := by
  intro N
  induction N with
  | zero =>
      intro l f1 f2 hN _ _
      have : l = [] := List.length_eq_zero.mp (Nat.le_zero.mp hN)
      subst this
      rw [renderAux_nil, renderAux_nil]
  | succ N ihN =>
      intro l f1 f2 hN h1 h2
      cases l with
      | nil => rw [renderAux_nil, renderAux_nil]
      | cons c rest =>
          cases f1 with
          | zero => simp at h1
          | succ g1 =>
              cases f2 with
              | zero => simp at h2
              | succ g2 =>
                  cases rest with
                  | nil => rfl
                  | cons c2 rest2 =>
                      simp only [List.length_cons] at hN h1 h2
                      simp only [renderAux]
                      by_cases hb : c = '{' ∧ c2 = '{'
                      · rw [if_pos hb, if_pos hb]
                        rcases hfc : findClose rest2 with _ | ⟨p, r⟩
                        · dsimp only
                          rw [ihN (c2 :: rest2) g1 g2 (by simp; omega) (by simp; omega)
                            (by simp; omega)]
                        · have hlen := findClose_length rest2 p r hfc
                          dsimp only
                          rw [ihN r g1 g2 (by omega) (by omega) (by omega)]
                      · rw [if_neg hb, if_neg hb]
                        rw [ihN (c2 :: rest2) g1 g2 (by simp; omega) (by simp; omega)
                          (by simp; omega)]

/-- Helper: a prefix without an opening brace passes through the template
scan unchanged. -/
theorem renderAux_passthrough (input : Value) :
    ∀ (pre l : List Char) (f : Nat), '{' ∉ pre → l.length ≤ f →
      renderAux input (pre.length + f) (pre ++ l) = pre ++ renderAux input f l
  | [], l, f, _, _ => by simp
  | c :: pre, l, f, hpre, hf => by
      have hc : c ≠ '{' := fun h => hpre (by simp [h])
      have hpre2 : '{' ∉ pre := fun h => hpre (by simp [h])
      have hfl : (c :: pre).length + f = (pre.length + f) + 1 := by
        simp only [List.length_cons]
        omega
      rw [hfl]
      simp only [List.cons_append]
      rcases happ : pre ++ l with _ | ⟨c2, rest2⟩
      · obtain ⟨hpn, hln⟩ := List.append_eq_nil.mp happ
        subst hpn
        subst hln
        simp [renderAux, renderAux_nil]
      · simp only [renderAux]
        rw [if_neg (fun h => hc h.1), ← happ,
          renderAux_passthrough input pre l f hpre2 hf]

/-- Helper: scanning a template made of a brace-free prefix, one placeholder
and an arbitrary tail substitutes the placeholder and scans the tail. -/
theorem renderAux_match (input : Value) (pre path post : List Char)
    (hpre : '{' ∉ pre) (hpc : '}' ∉ path) (hpn : '\n' ∉ path) (hpr : '\r' ∉ path) :
    renderAux input ((pre ++ ('{' :: '{' :: (path ++ ('}' :: '}' :: post)))).length + 1)
        (pre ++ ('{' :: '{' :: (path ++ ('}' :: '}' :: post)))) =
      pre ++ (substPlaceholder input path ++ renderAux input (post.length + 1) post) := by
  have hlen : (pre ++ ('{' :: '{' :: (path ++ ('}' :: '}' :: post)))).length + 1 =
      pre.length + (('{' :: '{' :: (path ++ ('}' :: '}' :: post))).length + 1) := by
    simp only [List.length_append, List.length_cons]
    omega
  rw [hlen]
  refine Eq.trans (renderAux_passthrough input pre ('{' :: '{' :: (path ++ ('}' :: '}' :: post)))
    (('{' :: '{' :: (path ++ ('}' :: '}' :: post))).length + 1) hpre (by omega)) ?_
  congr 1
  simp only [renderAux, List.length_cons]
  rw [if_pos ⟨trivial, trivial⟩, findClose_at_close path post hpc hpn hpr]
  dsimp only
  rw [renderAux_fuel input ((path ++ ('}' :: '}' :: post)).length + 1 + 1) post
    ((path ++ ('}' :: '}' :: post)).length + 1 + 1) (post.length + 1) (by simp; omega)
    (by simp; omega) (by omega)]

/-! ## Claim C8: placeholder substitution in output templates -/

/-- C8: for an `output` node with format `text` or `html` and a template
containing a placeholder (written after a prefix without `\x7b`, with a path
free of `\x7d` and line terminators), `formatOutput` substitutes the
placeholder and scans the rest: `substPlaceholder` replaces a resolving
dot-path by `String(value)` of the lookup 
 and leaves the whole placeholder
literally in place when the path resolves to nothing (second and third
conjuncts). -/
theorem c8_template_substitution (fmt : String) (input : Value) (pre path post : List Char)
    (hfmt : fmt = "text" ∨ fmt = "html")
    (hpre : '{' ∉ pre) (hpc : '}' ∉ path) (hpn : '\n' ∉ path) (hpr : '\r' ∉ path) :
    formatOutput fmt
        (some (String.mk (pre ++ ('{' :: '{' :: (path ++ ('}' :: '}' :: post)))))) input =
      .str (String.mk (pre ++ (substPlaceholder input path ++
        renderAux input (post.length + 1) post))) ∧
    (∀ v, lookupPath input ((String.mk path).splitOn ".") = some v →
      substPlaceholder input path = (jsToString v).data) ∧
    (lookupPath input ((String.mk path).splitOn ".") = none →
      substPlaceholder input path = '{' :: '{' :: (path ++ ('}' :: '}' :: []))) := by
  refine ⟨?_, ?_, ?_⟩
  · have hne : String.mk (pre ++ ('{' :: '{' :: (path ++ ('}' :: '}' :: post)))) ≠ "" := by
      intro h
      have h2 := congrArg String.data h
      simp at h2
    have hmatch := renderAux_match input pre path post hpre hpc hpn hpr
    rcases hfmt with h | h <;> subst h
    · simp only [formatOutput]
      rw [if_neg hne]
      exact congrArg Value.str (congrArg String.mk hmatch)
    · simp only [formatOutput]
      rw [if_neg hne]
      exact congrArg Value.str (congrArg String.mk hmatch)
  · intro v hv
    simp [substPlaceholder, hv]
  · intro hv
    simp [substPlaceholder, hv]

/-- Witness for C8 at the template `Hi {{a}}!` over `{"a": "Ada"}`. -/
theorem c8_witness :
    formatOutput "text"
        (some (String.mk (['H', 'i', ' '] ++
          ('{' :: '{' :: (['a'] ++ ('}' :: '}' :: ['!'])))))) (Value.obj [("a", Value.str "Ada")]) =
      .str (String.mk (['H', 'i', ' '] ++
        (substPlaceholder (Value.obj [("a", Value.str "Ada")]) ['a'] ++
          renderAux (Value.obj [("a", Value.str "Ada")]) (['!'].length + 1) ['!']))) ∧
    (∀ v, lookupPath (Value.obj [("a", Value.str "Ada")]) ((String.mk ['a']).splitOn ".") =
        some v →
      substPlaceholder (Value.obj [("a", Value.str "Ada")]) ['a'] = (jsToString v).data) ∧
    (lookupPath (Value.obj [("a", Value.str "Ada")]) ((String.mk ['a']).splitOn ".") = none →
      substPlaceholder (Value.obj [("a", Value.str "Ada")]) ['a'] =
        '{' :: '{' :: (['a'] ++ ('}' :: '}' :: []))) :=
  c8_template_substitution "text" (Value.obj [("a", Value.str "Ada")]) ['H', 'i', ' '] ['a']
    ['!'] (Or.inl rfl) (by decide) (by decide) (by decide) (by decide)
